import Mathlib

/-!
Verification of the suggestion-reconciliation and check-session engine of the
grammy repository, against its natural-language specification.

The embedding is byte-level: a Rust `String` is modelled by the list of its
UTF-8 bytes (`List Nat`), and where the character structure matters (the
backend's character-offset span mapper, lowercasing, whitespace trimming) the
text is modelled as its list of Unicode scalar values (`List Char`) together
with the UTF-8 encoding function.  Machine integers (`usize`/`isize`/`u64`)
are modelled as `Nat`/`Int`, with an explicit `% 2 ^ 64` where the source
performs a wrapping cast.
-/

namespace Grammy

/-- UTF-8 encoding of a Unicode scalar value, as the list of its bytes.  This
models how Rust `String` stores text; `char_indices` and every byte offset in
the source are offsets into this encoding. -/
def encodeChar (c : Char) : List Nat :=
  let n := c.toNat
  if n < 0x80 then [n]
  else if n < 0x800 then [0xC0 + n / 0x40, 0x80 + n % 0x40]
  else if n < 0x10000 then
    [0xE0 + n / 0x1000, 0x80 + n / 0x40 % 0x40, 0x80 + n % 0x40]
  else
    [0xF0 + n / 0x40000, 0x80 + n / 0x1000 % 0x40, 0x80 + n / 0x40 % 0x40,
      0x80 + n % 0x40]

/-- The UTF-8 bytes of a string, given as its list of Unicode scalar values. -/
def strBytes (t : List Char) : List Nat := t.flatMap encodeChar

/-- The Rust byte slice `text[off..off+len]`, over a byte list. -/
def slice (l : List Nat) (off len : Nat) : List Nat := (l.drop off).take len

/-- Rust `str::find(&str)`: the byte index of the first occurrence of `pat`
in `l`, if any. -/
def byteFind (l pat : List Nat) : Option Nat :=
  if pat.isPrefixOf l then some 0
  else
    match l with
    | [] => none
    | _ :: t => (byteFind t pat).map (· + 1)

/-- Models the character mapping of Rust `str::to_lowercase`, restricted to
the ASCII range (`A`-`Z` map to `a`-`z`); non-ASCII lowercasing is irrelevant
to every claim checked here. -/
def toLowerChar (c : Char) : Char :=
  if 'A' ≤ c ∧ c ≤ 'Z' then Char.ofNat (c.toNat + 32) else c

/-- Rust `str::to_lowercase` over the scalar values of a string. -/
def lowerStr (t : List Char) : List Char := t.map toLowerChar

/-- Severity of a suggestion (src/suggestion.rs); display-only. -/
inductive Severity
  | error
  | warning
  | suggestion
deriving DecidableEq

/-- The frontend `Suggestion` record (src/suggestion.rs).  `id` is the
process-unique token (a uuid string in the source, abstracted to `Nat`);
`offset`/`length` are byte coordinates into the current document;
`original`/`replacement` are the UTF-8 bytes of the corresponding strings. -/
structure Sug where
  id : Nat
  message : String
  offset : Nat
  length : Nat
  original : List Nat
  replacement : Option (List Nat)
  severity : Severity
deriving DecidableEq

/-- The raw model match of the frontend (`LlmMatch`, src/suggestion.rs):
addressed by a literal substring, with an optional replacement. -/
structure LlmMatch where
  message : String
  original : List Char
  replacement : Option (List Char)
  severity : Severity
deriving DecidableEq

/-- Models `Suggestion::new` (src/suggestion.rs): `length` is the byte length
of `original`; the random uuid is abstracted as 0 (no claim about the
converters depends on the identifier). -/
def Sug.new (message : String) (offset : Nat) (original : List Char)
    (replacement : Option (List Char)) (severity : Severity) : Sug :=
  ⟨0, message, offset, (strBytes original).length, strBytes original,
    replacement.map strBytes, severity⟩

/-- One iteration of the match loop of `convert_matches_to_suggestions`
(src/api.rs): drop empty originals and empty or no-op replacements, then
locate `original` by case-sensitive first-match search, falling back to a
search over the lowercased text. -/
def mapMatchFront (text : List Char) (m : LlmMatch) : Option Sug :=
  if m.original.isEmpty then none
  else if (match m.replacement with
           | some repl => repl.isEmpty || repl == m.original
           | none => false) then none
  else
    match byteFind (strBytes text) (strBytes m.original) with
    | some pos => some (Sug.new m.message pos m.original m.replacement m.severity)
    | none =>
      match byteFind (strBytes (lowerStr text)) (strBytes (lowerStr m.original)) with
      | some pos => some (Sug.new m.message pos m.original m.replacement m.severity)
      | none => none

/-- The overlap-filter sweep shared by both converters (src/api.rs and
backend/src/main.rs): keep a suggestion only when its offset has reached the
running `last_end` cursor; on keep, the cursor advances to its end. -/
def sweepBy (off len : α → Nat) (lastEnd : Nat) : List α → List α
  | [] => []
  | s :: rest =>
    if off s < lastEnd then sweepBy off len lastEnd rest
    else s :: sweepBy off len (off s + len s) rest

/-- The ascending stable sort by `offset` (`sort_by_key` in Rust is stable):
insertion sort placing an element before later elements with an equal key,
hence preserving input order among ties. -/
def sortByOffset (off : α → Nat) (l : List α) : List α :=
  List.insertionSort (fun a b => off a ≤ off b) l

/-- The normalisation step of `convert_matches_to_suggestions` (src/api.rs,
lines 404-418): stable sort ascending by offset, then the `last_end` sweep. -/
def normalize (l : List Sug) : List Sug :=
  sweepBy Sug.offset Sug.length 0 (sortByOffset Sug.offset l)

/-- Model of `convert_matches_to_suggestions` (src/api.rs): map every match, sort by
offset, and sweep out overlaps. -/
def convertMatchesToSuggestions (text : List Char) (ms : List LlmMatch) :
    List Sug :=
  normalize (ms.filterMap (mapMatchFront text))

/-- Byte offsets of the char boundaries of a text: the byte index of every
scalar value (as produced by `char_indices`), followed by the total byte
length, exactly the `boundaries` vector built at the top of
`convert_llm_matches_to_suggestions` (backend/src/main.rs). -/
def charBoundariesAux (acc : Nat) : List Char → List Nat
  | [] => [acc]
  | c :: cs => acc :: charBoundariesAux (acc + (encodeChar c).length) cs

/-- The `boundaries` vector of `convert_llm_matches_to_suggestions`. -/
def charBoundaries (t : List Char) : List Nat := charBoundariesAux 0 t

/-- The backend's raw model match (backend/src/main.rs): `start`/`stop` are
character offsets (Unicode scalar values) into the text that was sent; `stop`
models the Rust field `end` (a Lean keyword) and is exclusive. -/
structure BMatch where
  message : String
  start : Nat
  stop : Nat
  replacement : List Char
deriving DecidableEq

/-- The backend `Suggestion` record (backend/src/main.rs); the uuid `id` and
the constant `rule` field are abstracted away (no claim depends on them). -/
structure BSug where
  message : String
  offset : Nat
  length : Nat
  original : List Nat
  replacement : List Char
deriving DecidableEq

/-- Rust `str::get(start..end)` on byte indices: `some` slice when
`start ≤ end` and both ends are char boundaries, `none` otherwise. -/
def strGet (t : List Char) (sb eb : Nat) : Option (List Nat) :=
  if sb ≤ eb ∧ sb ∈ charBoundaries t ∧ eb ∈ charBoundaries t
  then some (slice (strBytes t) sb (eb - sb))
  else none

/-- One iteration of the match loop of `convert_llm_matches_to_suggestions`
(backend/src/main.rs): reject inverted or out-of-range character offsets,
translate them through the boundaries vector, slice the original text, and
drop no-op replacements. -/
def mapLlmMatch (text : List Char) (m : BMatch) : Option BSug :=
  let boundaries := charBoundaries text
  let charLen := boundaries.length - 1
  if m.start > m.stop ∨ m.stop > charLen then none
  else
    (boundaries.get? m.start).bind fun startB =>
    (boundaries.get? m.stop).bind fun endB =>
    if startB > endB ∨ endB > (strBytes text).length then none
    else
      (strGet text startB endB).bind fun original =>
      if original == strBytes m.replacement then none
      else some ⟨m.message, startB, endB - startB, original, m.replacement⟩

/-- Model of `convert_llm_matches_to_suggestions` (backend/src/main.rs): map every
match, sort by offset, and sweep out overlaps. -/
def convertLlmMatchesToSuggestions (text : List Char) (ms : List BMatch) :
    List BSug :=
  sweepBy BSug.offset BSug.length 0
    (sortByOffset BSug.offset (ms.filterMap (mapLlmMatch text)))

/-- The liveness invariant of a byte span over a document: in bounds, and the
document bytes at the span are exactly `original`. -/
def LiveSpan (doc : List Nat) (off len : Nat) (original : List Nat) : Prop :=
  off + len ≤ doc.length ∧ slice doc off len = original

instance (doc : List Nat) (off len : Nat) (original : List Nat) :
    Decidable (LiveSpan doc off len original) := by
  unfold LiveSpan; infer_instance

/-- UTF-8 encodings of every character with the Unicode `White_Space`
property (the set recognised by Rust `char::is_whitespace`). -/
def wsEncodings : List (List Nat) :=
  [[0x09], [0x0A], [0x0B], [0x0C], [0x0D], [0x20],
   [0xC2, 0x85], [0xC2, 0xA0],
   [0xE1, 0x9A, 0x80],
   [0xE2, 0x80, 0x80], [0xE2, 0x80, 0x81], [0xE2, 0x80, 0x82],
   [0xE2, 0x80, 0x83], [0xE2, 0x80, 0x84], [0xE2, 0x80, 0x85],
   [0xE2, 0x80, 0x86], [0xE2, 0x80, 0x87], [0xE2, 0x80, 0x88],
   [0xE2, 0x80, 0x89], [0xE2, 0x80, 0x8A],
   [0xE2, 0x80, 0xA8], [0xE2, 0x80, 0xA9], [0xE2, 0x80, 0xAF],
   [0xE2, 0x81, 0x9F], [0xE3, 0x80, 0x80]]

/-- Fuel-driven worker for `trimIsEmpty`: strip one whitespace-character
encoding from the front per step (the encodings are mutually prefix-free, so
the strip is deterministic). -/
def trimIsEmptyGo : Nat → List Nat → Bool
  | _, [] => true
  | 0, _ :: _ => false
  | fuel + 1, b :: bs =>
    match wsEncodings.find? (fun e => e.isPrefixOf (b :: bs)) with
    | some e => trimIsEmptyGo fuel ((b :: bs).drop e.length)
    | none => false

/-- Models Rust `text.trim().is_empty()` at the byte level: a string trims to
empty exactly when its UTF-8 bytes are a concatenation of encodings of
`White_Space` characters. -/
def trimIsEmpty (bs : List Nat) : Bool := trimIsEmptyGo bs.length bs

/-- The check-session slice of the application `State` (src/app/state.rs).
The `iced` editor widget is modelled by the UTF-8 bytes of its text; the
GUI-only fields (settings, model lists, test connection) are omitted — no
claim touches them and no modelled operation reads or writes them.  `counter`
models the process-wide `REQUEST_COUNTER` atomic (src/api.rs); `Instant`s are
modelled as `Int` time stamps; `message_history` stores each pushed pair as
the checked text together with the suggestion list whose JSON serialisation
the source stores. -/
structure EngineState where
  text : List Nat
  last_checked_text : List Nat
  suggestions : List Sug
  hovered_suggestion : Option Nat
  status : String
  debounce_ms : Nat
  is_checking : Bool
  current_check_request_id : Option Nat
  pending_recheck : Bool
  pending_check_text : Option (List Nat)
  last_edit_time : Option Int
  message_history : List (List Nat × List Sug)
  counter : Nat
deriving DecidableEq

/-- A grammar-check request handed to the API worker (`ApiRequest` with
`ApiJob::Grammar`, src/app/api_worker.rs); only the tag and the submitted
text matter to the claims, the provider/key/model/history payload is
carried opaquely by the external collaborator. -/
structure ApiRequestM where
  request_id : Nat
  text : List Nat
deriving DecidableEq

/-- A grammar-check response arriving on the worker channel
(`ApiResponse::GrammarSuccess` / `ApiResponse::GrammarError`,
src/app/api_worker.rs). -/
inductive GrammarResponse
  | success (suggestions : List Sug) (request_id : Nat)
  | error (message : String) (request_id : Nat)
deriving DecidableEq

/-- The request id a response is tagged with. -/
def GrammarResponse.rid : GrammarResponse → Nat
  | .success _ i => i
  | .error _ i => i

/-- The capacity loop of `MessageHistory::push_pair` (src/app/history.rs)
with the default `max_pairs = 5`: drop oldest pairs while at capacity. -/
def trimHistory (h : List (List Nat × List Sug)) : List (List Nat × List Sug) :=
  if h.length ≥ 5 then trimHistory (h.drop 1) else h
termination_by h.length
decreasing_by simpa using by omega

/-- Model of `MessageHistory::push_pair` (src/app/history.rs) on the pair list. -/
def pushPair (h : List (List Nat × List Sug)) (u : List Nat) (a : List Sug) :
    List (List Nat × List Sug) :=
  trimHistory h ++ [(u, a)]

/-- Processing of one grammar-check response by `process_api_responses`
(src/app/state.rs, the `GrammarSuccess` and `GrammarError` arms).  `now` is
the current instant.  The returned list is the requests sent during this
processing step: the source contains no send on these paths, so it is `[]`
in every branch. -/
def processGrammarResponse (now : Int) (st : EngineState)
    (r : GrammarResponse) : EngineState × List ApiRequestM :=
  match r with
  | .success suggestions request_id =>
    if st.current_check_request_id ≠ some request_id then (st, [])
    else
      let st1 := { st with is_checking := false, current_check_request_id := none }
      let st2 :=
        match st1.pending_check_text with
        | some user_text =>
          { st1 with
              message_history := pushPair st1.message_history user_text suggestions,
              pending_check_text := none }
        | none => st1
      let st3 := { st2 with suggestions := suggestions }
      let st4 := { st3 with status :=
        (if st3.suggestions.isEmpty then "All good!"
         else toString st3.suggestions.length ++ " suggestion(s)") }
      if st4.pending_recheck then
        if st4.debounce_ms ≤ 5000 then
          ({ st4 with last_edit_time := some (now - (st4.debounce_ms : Int)) }, [])
        else
          ({ st4 with pending_recheck := false }, [])
      else (st4, [])
  | .error message request_id =>
    if st.current_check_request_id ≠ some request_id then (st, [])
    else
      let st1 := { st with is_checking := false, current_check_request_id := none,
                           status := message }
      if st1.pending_recheck then
        if st1.debounce_ms ≤ 5000 then
          ({ st1 with last_edit_time := some (now - (st1.debounce_ms : Int)) }, [])
        else
          ({ st1 with pending_recheck := false }, [])
      else (st1, [])

/-- Model of `check_text` (src/app/state.rs).  The channel send is modelled as always
succeeding (its failure branch concerns a dead worker thread, an external
collaborator); `next_request_id()` is the fetch-and-add on the modelled
counter. -/
def checkText (st : EngineState) : EngineState × List ApiRequestM :=
  let text := st.text
  if trimIsEmpty text then
    ({ st with suggestions := [], hovered_suggestion := none,
               status := "Ready", last_checked_text := text,
               is_checking := false, current_check_request_id := none }, [])
  else if text = st.last_checked_text then (st, [])
  else if st.is_checking then ({ st with pending_recheck := true }, [])
  else
    let request_id := st.counter
    ({ st with counter := st.counter + 1,
               is_checking := true,
               current_check_request_id := some request_id,
               status := "Checking...",
               suggestions := [], hovered_suggestion := none,
               last_checked_text := text,
               pending_check_text := some text },
     [⟨request_id, text⟩])

/-- Model of `tick_debounce` (src/app/state.rs): on each 50ms tick, fire `check_text`
once the configured debounce delay has elapsed since the last edit; a delay
above 5000ms means "Never" and suppresses automatic checks entirely. -/
def tickDebounce (now : Int) (st : EngineState) : EngineState × List ApiRequestM :=
  match st.last_edit_time with
  | none => (st, [])
  | some edit_time =>
    let delay := st.debounce_ms
    if delay > 5000 then (st, [])
    else if now - edit_time ≥ (delay : Int) then
      checkText { st with last_edit_time := none }
    else (st, [])

/-- The `Message::ForceCheck` arm of `update` (src/app/state.rs). -/
def forceCheck (st : EngineState) : EngineState × List ApiRequestM :=
  if st.is_checking then
    ({ st with pending_recheck := true, status := "Rechecking..." }, [])
  else
    checkText { st with last_checked_text := [] }

/-- Model of `apply_suggestion` (src/app/state.rs).  The offset shift
`(s.offset as isize + delta) as usize` is a wrapping cast in Rust, modelled
by the explicit `% 2 ^ 64`. -/
def applySuggestion (now : Int) (st : EngineState) (suggestion_id : Nat) :
    EngineState :=
  match st.suggestions.find? (fun s => s.id == suggestion_id) with
  | none => st
  | some sug =>
    let text := st.text
    let start := sug.offset
    let stop := sug.offset + sug.length
    if start > text.length ∨ stop > text.length then
      { st with status := "Invalid suggestion range", last_edit_time := some now }
    else if slice text start sug.length ≠ sug.original then
      { st with status := "Text changed; re-checking...", last_edit_time := some now }
    else
      match sug.replacement with
      | none => st
      | some repl =>
        let new_text := text.take start ++ repl ++ text.drop stop
        let delta : Int := (repl.length : Int) - (sug.length : Int)
        let remaining := st.suggestions.filter (fun s => s.id != suggestion_id)
        let shifted := remaining.map (fun s =>
          if s.offset > sug.offset then
            { s with offset := (((s.offset : Int) + delta) % (2 ^ 64 : Int)).toNat }
          else s)
        { st with suggestions := shifted, text := new_text,
                  last_checked_text := new_text,
                  status := if shifted.isEmpty then "All good!"
                            else toString shifted.length ++ " suggestion(s)" }

/-- The cleared idle state the whitespace guard of `check_text` produces:
no request, no suggestions, status `Ready`, not checking, no in-flight id,
and `last_checked_text` set to the (whitespace-only) document. -/
def ClearedToReady (st st' : EngineState) (reqs : List ApiRequestM) : Prop :=
  reqs = [] ∧ st'.suggestions = [] ∧ st'.status = "Ready" ∧
  st'.is_checking = false ∧ st'.current_check_request_id = none ∧
  st'.last_checked_text = st.text

section ControllerClaims

/-- C1.  Stale-response suppression: a grammar-check response (success or
error) whose request id differs from the tracked in-flight id leaves the
whole session state unchanged and sends nothing; in particular its
suggestions never become the live set and the status is untouched. -/
theorem stale_response_suppression (now : Int) (st : EngineState)
    (r : GrammarResponse) (h : st.current_check_request_id ≠ some r.rid) :
    processGrammarResponse now st r = (st, []) := by
  cases r with
  | success sugs i =>
    simp only [GrammarResponse.rid] at h
    simp [processGrammarResponse, h]
  | error msg i =>
    simp only [GrammarResponse.rid] at h
    simp [processGrammarResponse, h]

/-- Witness for C1: a concrete stale response (id 1 against in-flight id 2)
is discarded outright. -/
theorem stale_response_suppression_witness :
    processGrammarResponse 0
      ⟨[104], [], [], none, "Checking...", 1000, true, some 2, false,
        some [104], none, [], 3⟩
      (.success [⟨9, "m", 0, 1, [104], none, .error⟩] 1) =
    (⟨[104], [], [], none, "Checking...", 1000, true, some 2, false,
        some [104], none, [], 3⟩, []) :=
  stale_response_suppression 0 _ _ (by decide)

/-- C9.  Error atomicity and no-retry: a check failure with the matching
request id surfaces the error message as the status, ends the checking
state, clears the in-flight id, leaves the suggestion set exactly as it was,
and sends no request during this processing step. -/
theorem error_atomicity (now : Int) (st : EngineState) (msg : String)
    (i : Nat) (h : st.current_check_request_id = some i) :
    (processGrammarResponse now st (.error msg i)).2 = [] ∧
    (processGrammarResponse now st (.error msg i)).1.status = msg ∧
    (processGrammarResponse now st (.error msg i)).1.is_checking = false ∧
    (processGrammarResponse now st (.error msg i)).1.current_check_request_id = none ∧
    (processGrammarResponse now st (.error msg i)).1.suggestions = st.suggestions := by
  simp only [processGrammarResponse, h]
  rw [if_neg (by simp)]
  split
  · split
    · exact ⟨rfl, rfl, rfl, rfl, rfl⟩
    · exact ⟨rfl, rfl, rfl, rfl, rfl⟩
  · exact ⟨rfl, rfl, rfl, rfl, rfl⟩

/-- Witness for C9: a concrete matching error response. -/
theorem error_atomicity_witness :
    (processGrammarResponse 0
      ⟨[104], [], [⟨9, "m", 0, 1, [104], none, .error⟩], none, "Checking...",
        1000, true, some 2, false, some [104], none, [], 3⟩
      (.error "Network error: boom" 2)).1.status = "Network error: boom" ∧
    (processGrammarResponse 0
      ⟨[104], [], [⟨9, "m", 0, 1, [104], none, .error⟩], none, "Checking...",
        1000, true, some 2, false, some [104], none, [], 3⟩
      (.error "Network error: boom" 2)).1.suggestions =
      [⟨9, "m", 0, 1, [104], none, .error⟩] := by
  have h := error_atomicity 0
    ⟨[104], [], [⟨9, "m", 0, 1, [104], none, .error⟩], none, "Checking...",
      1000, true, some 2, false, some [104], none, [], 3⟩
    "Network error: boom" 2 (by decide)
  exact ⟨h.2.1, h.2.2.2.2⟩

/-- C7 counterexample: a matching success response processed while
`pending_recheck` is set and the debounce interval is enabled (≤ 5000ms)
rearms the timer but does NOT clear `pending_recheck`, contradicting the
claim that it is cleared. -/
theorem pending_recheck_not_cleared :
    (processGrammarResponse 100
      ⟨[104], [104], [], none, "Checking...", 1000, true, some 3, true,
        some [104], none, [], 7⟩
      (.success [] 3)).1.pending_recheck = true := by decide

/-- C7 (amended).  Processing a matching response (success or error) while
`pending_recheck` is set: if the debounce interval is enabled (≤ 5000ms) the
timer is rearmed as already expired (`last_edit_time = now − interval`) but
`pending_recheck` is left set; if the interval is above 5000ms (auto-check
disabled) `pending_recheck` is cleared and the timer is not rearmed. -/
theorem pending_recheck_rearm (now : Int) (st : EngineState)
    (r : GrammarResponse) (hmatch : st.current_check_request_id = some r.rid)
    (hp : st.pending_recheck = true) :
    (st.debounce_ms ≤ 5000 →
      (processGrammarResponse now st r).1.last_edit_time =
          some (now - (st.debounce_ms : Int)) ∧
      (processGrammarResponse now st r).1.pending_recheck = true) ∧
    (5000 < st.debounce_ms →
      (processGrammarResponse now st r).1.pending_recheck = false ∧
      (processGrammarResponse now st r).1.last_edit_time = st.last_edit_time) := by
  cases r with
  | success sugs i =>
    simp only [GrammarResponse.rid] at hmatch
    simp only [processGrammarResponse, hmatch]
    rw [if_neg (by simp)]
    cases hpc : st.pending_check_text with
    | none =>
      simp only [hpc]
      refine ⟨fun hle => ?_, fun hlt => ?_⟩
      · rw [if_pos hp, if_pos hle]; exact ⟨rfl, hp⟩
      · rw [if_pos hp, if_neg (by omega)]; exact ⟨rfl, rfl⟩
    | some u =>
      simp only [hpc]
      refine ⟨fun hle => ?_, fun hlt => ?_⟩
      · rw [if_pos hp, if_pos hle]; exact ⟨rfl, hp⟩
      · rw [if_pos hp, if_neg (by omega)]; exact ⟨rfl, rfl⟩
  | error msg i =>
    simp only [GrammarResponse.rid] at hmatch
    simp only [processGrammarResponse, hmatch]
    rw [if_neg (by simp)]
    refine ⟨fun hle => ?_, fun hlt => ?_⟩
    · rw [if_pos hp, if_pos hle]; exact ⟨rfl, hp⟩
    · rw [if_pos hp, if_neg (by omega)]; exact ⟨rfl, rfl⟩

/-- Witness for C7 (amended): both branches at concrete states. -/
theorem pending_recheck_rearm_witness :
    ((processGrammarResponse 100
      ⟨[104], [104], [], none, "Checking...", 1000, true, some 3, true,
        some [104], none, [], 7⟩
      (.error "boom" 3)).1.last_edit_time = some (100 - (1000 : Int)) ∧
    (processGrammarResponse 100
      ⟨[104], [104], [], none, "Checking...", 1000, true, some 3, true,
        some [104], none, [], 7⟩
      (.error "boom" 3)).1.pending_recheck = true) ∧
    (processGrammarResponse 100
      ⟨[104], [104], [], none, "Checking...", 9000, true, some 3, true,
        some [104], none, [], 7⟩
      (.error "boom" 3)).1.pending_recheck = false := by
  have h1 := pending_recheck_rearm 100
    ⟨[104], [104], [], none, "Checking...", 1000, true, some 3, true,
      some [104], none, [], 7⟩ (.error "boom" 3) (by decide) (by decide)
  have h2 := pending_recheck_rearm 100
    ⟨[104], [104], [], none, "Checking...", 9000, true, some 3, true,
      some [104], none, [], 7⟩ (.error "boom" 3) (by decide) (by decide)
  exact ⟨h1.1 (by decide), (h2.2 (by decide)).1⟩

/-- C8 counterexample: with a configured interval of 6000ms, a tick whose
elapsed time since the last edit exceeds the interval, and a document that
differs from `last_checked_text`, no request is minted and the state is
unchanged — the `delay > 5000` ("Never") guard fires first, contradicting
the claim quantified over every configured interval. -/
theorem debounce_never_guard :
    (⟨[104], [], [], none, "Ready", 6000, false, none, false, none,
        some 0, [], 7⟩ : EngineState).last_edit_time = some 0 ∧
    ((6000 : Nat) : Int) ≤ 7000 - 0 ∧
    (⟨[104], [], [], none, "Ready", 6000, false, none, false, none,
        some 0, [], 7⟩ : EngineState).text ≠
      (⟨[104], [], [], none, "Ready", 6000, false, none, false, none,
        some 0, [], 7⟩ : EngineState).last_checked_text ∧
    tickDebounce 7000
      ⟨[104], [], [], none, "Ready", 6000, false, none, false, none,
        some 0, [], 7⟩ =
      (⟨[104], [], [], none, "Ready", 6000, false, none, false, none,
        some 0, [], 7⟩, []) := by
  exact ⟨rfl, by norm_num, by decide, by decide⟩

/-- C8 (amended).  Debounce firing, for an enabled interval (≤ 5000ms): a
tick with `now − last_edit_time ≥ interval` reaches `check_text`, which
issues no request when the text is whitespace-only, equals
`last_checked_text` (idempotence guard), or a check is already in flight
(the edit is queued instead); otherwise it mints the fresh id
`st.counter` from the process-wide counter (which increments, so ids are
never reused) and hands exactly one request with the document text to the
check operation, recording it as the single in-flight request. -/
theorem debounce_fires (now t : Int) (st : EngineState)
    (hEdit : st.last_edit_time = some t)
    (hEnabled : st.debounce_ms ≤ 5000)
    (hElapsed : (st.debounce_ms : Int) ≤ now - t) :
    (trimIsEmpty st.text = true → (tickDebounce now st).2 = []) ∧
    (trimIsEmpty st.text = false → st.text = st.last_checked_text →
      tickDebounce now st = ({ st with last_edit_time := none }, [])) ∧
    (trimIsEmpty st.text = false → st.text ≠ st.last_checked_text →
      st.is_checking = true → (tickDebounce now st).2 = []) ∧
    (trimIsEmpty st.text = false → st.text ≠ st.last_checked_text →
      st.is_checking = false →
      (tickDebounce now st).2 = [⟨st.counter, st.text⟩] ∧
      (tickDebounce now st).1.counter = st.counter + 1 ∧
      (tickDebounce now st).1.current_check_request_id = some st.counter ∧
      (tickDebounce now st).1.is_checking = true ∧
      (tickDebounce now st).1.last_checked_text = st.text ∧
      (tickDebounce now st).1.status = "Checking...") := by
  have hstep : tickDebounce now st = checkText { st with last_edit_time := none } := by
    rw [tickDebounce, hEdit]
    simp only
    rw [if_neg (by omega), if_pos hElapsed]
  rw [hstep]
  refine ⟨fun hws => ?_, fun hws heq => ?_, fun hws hne hc => ?_,
    fun hws hne hc => ?_⟩
  · rw [checkText]; simp only; rw [if_pos hws]
  · rw [checkText]; simp only
    rw [if_neg (by simp [hws]), if_pos heq]
  · rw [checkText]; simp only
    rw [if_neg (by simp [hws]), if_neg hne, if_pos hc]
  · rw [checkText]; simp only
    rw [if_neg (by simp [hws]), if_neg hne, if_neg (by simp [hc])]
    exact ⟨rfl, rfl, rfl, rfl, rfl, rfl⟩

/-- Witness for C8 (amended): a concrete expired tick on a non-whitespace,
changed, idle document mints request id 7 (the counter value) and sends the
text. -/
theorem debounce_fires_witness :
    (tickDebounce 7000
      ⟨[104, 105], [], [], none, "Ready", 1000, false, none, false, none,
        some 0, [], 7⟩).2 =
      [⟨7, [104, 105]⟩] ∧
    (tickDebounce 7000
      ⟨[104, 105], [], [], none, "Ready", 1000, false, none, false, none,
        some 0, [], 7⟩).1.counter = 8 := by
  have h := debounce_fires 7000 0
    ⟨[104, 105], [], [], none, "Ready", 1000, false, none, false, none,
      some 0, [], 7⟩ rfl (by norm_num) (by norm_num)
  have h4 := h.2.2.2 (by decide) (by decide) rfl
  exact ⟨h4.1, h4.2.1⟩

/-- C10.  Whitespace-only documents never reach the check operation:
whether a check is invoked directly, by a `ForceCheck` command on an idle
session, or by an expired enabled debounce tick, no request is sent and the
session is reset to the cleared `Ready` state with `last_checked_text` set
to the whitespace text. -/
theorem whitespace_never_sent (now t : Int) (st : EngineState)
    (hws : trimIsEmpty st.text = true) :
    ClearedToReady st (checkText st).1 (checkText st).2 ∧
    (st.is_checking = false →
      ClearedToReady st (forceCheck st).1 (forceCheck st).2) ∧
    (st.last_edit_time = some t → st.debounce_ms ≤ 5000 →
      (st.debounce_ms : Int) ≤ now - t →
      ClearedToReady st (tickDebounce now st).1 (tickDebounce now st).2) := by
  have hgen : ∀ st' : EngineState, st'.text = st.text →
      ClearedToReady st (checkText st').1 (checkText st').2 := by
    intro st' hs
    rw [checkText]
    simp only [hs]
    rw [if_pos hws]
    exact ⟨rfl, rfl, rfl, rfl, rfl, rfl⟩
  refine ⟨hgen st rfl, fun hidle => ?_, fun hEdit hEnabled hElapsed => ?_⟩
  · rw [forceCheck, if_neg (by simp [hidle])]
    exact hgen _ rfl
  · rw [tickDebounce, hEdit]
    simp only
    rw [if_neg (by omega), if_pos hElapsed]
    exact hgen _ rfl

/-- Witness for C10: a concrete whitespace document (" \n") on a session
with live suggestions and an in-flight check is cleared to `Ready` without
any request. -/
theorem whitespace_never_sent_witness :
    ClearedToReady
      ⟨[32, 10], [104], [⟨9, "m", 0, 1, [32], none, .error⟩], some 9,
        "Checking...", 1000, true, some 5, false, none, none, [], 7⟩
      (checkText
        ⟨[32, 10], [104], [⟨9, "m", 0, 1, [32], none, .error⟩], some 9,
          "Checking...", 1000, true, some 5, false, none, none, [], 7⟩).1
      (checkText
        ⟨[32, 10], [104], [⟨9, "m", 0, 1, [32], none, .error⟩], some 9,
          "Checking...", 1000, true, some 5, false, none, none, [], 7⟩).2 :=
  (whitespace_never_sent 0 0 _ (by decide)).1

end ControllerClaims

section NormalizerClaims

instance (off : α → Nat) : IsTotal α (fun a b => off a ≤ off b) :=
  ⟨fun a b => Nat.le_total (off a) (off b)⟩

instance (off : α → Nat) : IsTrans α (fun a b => off a ≤ off b) :=
  ⟨fun _ _ _ => Nat.le_trans⟩

/-- The sweep only ever drops elements. -/
theorem sweepBy_sublist (off len : α → Nat) (c : Nat) (l : List α) :
    List.Sublist (sweepBy off len c l) l := by
  induction l generalizing c with
  | nil => simp [sweepBy]
  | cons s rest ih =>
    rw [sweepBy]
    split
    · exact (ih c).cons s
    · exact (ih (off s + len s)).cons₂ s

/-- Over an offset-sorted list, every survivor of the sweep sits at or past
the initial cursor, and survivors are pairwise separated: each one's end is
at or before the next one's offset. -/
theorem sweepBy_separated (off len : α → Nat) (c : Nat) (l : List α)
    (hs : l.Pairwise (fun a b => off a ≤ off b)) :
    (∀ x ∈ sweepBy off len c l, c ≤ off x) ∧
    (sweepBy off len c l).Pairwise (fun a b => off a + len a ≤ off b) := by
  induction l generalizing c with
  | nil => simp [sweepBy]
  | cons s rest ih =>
    rw [List.pairwise_cons] at hs
    obtain ⟨-, htail⟩ := hs
    rw [sweepBy]
    split
    · exact ih c htail
    · rename_i hge
      obtain ⟨hall, hpw⟩ := ih (off s + len s) htail
      refine ⟨?_, ?_⟩
      · intro x hx
        rcases List.mem_cons.mp hx with rfl | hx
        · omega
        · have := hall x hx; omega
      · rw [List.pairwise_cons]
        exact ⟨fun b hb => hall b hb, hpw⟩

/-- C3.  `normalize` keeps a subsequence of the stable offset-sort (a
suggestion survives exactly when its offset has reached the running
`last_end` cursor), and its output is offset-sorted with each kept
suggestion ending at or before the next one's offset — in particular no two
output suggestions have overlapping `[offset, offset+length)` ranges. -/
theorem normalize_no_overlap (l : List Sug) :
    List.Sublist (normalize l) (sortByOffset Sug.offset l) ∧
    (normalize l).Pairwise (fun a b => a.offset + a.length ≤ b.offset) := by
  refine ⟨sweepBy_sublist _ _ 0 _, ?_⟩
  have hs : (sortByOffset Sug.offset l).Pairwise
      (fun a b => Sug.offset a ≤ Sug.offset b) :=
    List.sorted_insertionSort _ l
  exact (sweepBy_separated _ _ 0 _ hs).2

/-- Witness for C3 at the spec's scenario: "I has" (0..5) survives and the
nested "has" (2..5) is swept out. -/
theorem normalize_no_overlap_witness :
    normalize
      [⟨1, "long", 0, 5, [73, 32, 104, 97, 115], some [], .error⟩,
       ⟨2, "short", 2, 3, [104, 97, 115], some [], .error⟩] =
      [⟨1, "long", 0, 5, [73, 32, 104, 97, 115], some [], .error⟩] ∧
    (normalize
      [⟨1, "long", 0, 5, [73, 32, 104, 97, 115], some [], .error⟩,
       ⟨2, "short", 2, 3, [104, 97, 115], some [], .error⟩]).Pairwise
      (fun a b => a.offset + a.length ≤ b.offset) :=
  ⟨by decide,
   (normalize_no_overlap
      [⟨1, "long", 0, 5, [73, 32, 104, 97, 115], some [], .error⟩,
       ⟨2, "short", 2, 3, [104, 97, 115], some [], .error⟩]).2⟩

end NormalizerClaims

section SliceLemmas

theorem slice_append_left (a b : List Nat) (o n : Nat) (h : o + n ≤ a.length) :
    slice (a ++ b) o n = slice a o n := by
  unfold slice
  rw [List.drop_append_of_le_length (by omega)]
  rw [List.take_append_of_le_length (by rw [List.length_drop]; omega)]

theorem slice_append_right (a b : List Nat) (k n : Nat) :
    slice (a ++ b) (a.length + k) n = slice b k n := by
  unfold slice
  rw [List.drop_append]

theorem slice_take (l : List Nat) (k o n : Nat) (h : o + n ≤ k) :
    slice (l.take k) o n = slice l o n := by
  unfold slice
  rw [List.drop_take, List.take_take]
  congr 1
  omega

theorem slice_drop (l : List Nat) (k j n : Nat) :
    slice (l.drop k) j n = slice l (k + j) n := by
  unfold slice
  rw [List.drop_drop]

/-- Specification of `byteFind`: a hit is in bounds and the document bytes
at the hit are the pattern. -/
theorem byteFind_spec (pat : List Nat) : ∀ (l : List Nat) (p : Nat),
    byteFind l pat = some p →
    p + pat.length ≤ l.length ∧ slice l p pat.length = pat := by
  intro l
  induction l with
  | nil =>
    intro p h
    rw [byteFind] at h
    split at h
    · rename_i hpre
      obtain rfl : pat = [] :=
        List.prefix_nil.mp (List.isPrefixOf_iff_prefix.mp hpre)
      obtain rfl : 0 = p := Option.some.inj h
      exact ⟨Nat.le_refl 0, rfl⟩
    · simp at h
  | cons b t ih =>
    intro p h
    rw [byteFind] at h
    split at h
    · rename_i hpre
      obtain rfl : 0 = p := Option.some.inj h
      have hp : pat <+: b :: t := List.isPrefixOf_iff_prefix.mp hpre
      refine ⟨by simpa using hp.length_le, ?_⟩
      unfold slice
      rw [List.drop_zero]
      exact (List.prefix_iff_eq_take.mp hp).symm
    · rcases Option.map_eq_some'.mp h with ⟨q, hq, rfl⟩
      obtain ⟨hlen, hslice⟩ := ih q hq
      refine ⟨by simp; omega, ?_⟩
      unfold slice at hslice ⊢
      rw [List.drop_succ_cons]
      exact hslice

theorem strBytes_append (a b : List Char) :
    strBytes (a ++ b) = strBytes a ++ strBytes b := by
  simp [strBytes]

theorem strBytes_take_add (t : List Char) (s e : Nat) (hse : s ≤ e) :
    strBytes (t.take e) =
      strBytes (t.take s) ++ strBytes ((t.drop s).take (e - s)) := by
  rw [← strBytes_append]
  congr 1
  calc t.take e = t.take (s + (e - s)) := by congr 1; omega
  _ = t.take s ++ (t.drop s).take (e - s) := List.take_add t s (e - s)

theorem strBytes_take_drop (t : List Char) (e : Nat) :
    strBytes t = strBytes (t.take e) ++ strBytes (t.drop e) := by
  rw [← strBytes_append, List.take_append_drop]

/-- Slicing the document bytes between the byte offsets of two char
boundaries recovers exactly the bytes of the scalar values in between. -/
theorem slice_strBytes_segment (t : List Char) (s e : Nat) (hse : s ≤ e) :
    slice (strBytes t) (strBytes (t.take s)).length
        ((strBytes (t.take e)).length - (strBytes (t.take s)).length) =
      strBytes ((t.drop s).take (e - s)) := by
  have htake := strBytes_take_add t s e hse
  have hbytes : strBytes t =
      strBytes (t.take s) ++ strBytes ((t.drop s).take (e - s)) ++
        strBytes (t.drop e) := by
    rw [strBytes_take_drop t e, htake]
  have hlen : (strBytes (t.take e)).length =
      (strBytes (t.take s)).length +
        (strBytes ((t.drop s).take (e - s))).length := by
    rw [htake, List.length_append]
  rw [hbytes, hlen, Nat.add_sub_cancel_left, List.append_assoc]
  unfold slice
  rw [List.drop_left, List.take_left]

theorem charBoundariesAux_length (t : List Char) :
    ∀ acc, (charBoundariesAux acc t).length = t.length + 1 := by
  induction t with
  | nil => intro acc; rfl
  | cons c cs ih =>
    intro acc
    rw [charBoundariesAux, List.length_cons, ih]
    rfl

theorem charBoundariesAux_get? (t : List Char) :
    ∀ acc i, i ≤ t.length →
    (charBoundariesAux acc t).get? i =
      some (acc + (strBytes (t.take i)).length) := by
  induction t with
  | nil =>
    intro acc i hi
    obtain rfl : i = 0 := Nat.le_zero.mp (by simpa using hi)
    simp [charBoundariesAux, strBytes]
  | cons c cs ih =>
    intro acc i hi
    cases i with
    | zero => simp [charBoundariesAux, strBytes]
    | succ j =>
      rw [charBoundariesAux, List.get?_cons_succ,
        ih (acc + (encodeChar c).length) j (by simpa using hi)]
      congr 1
      rw [List.take_succ_cons]
      simp only [strBytes, List.flatMap_cons, List.length_append]
      omega

theorem charBoundaries_length (t : List Char) :
    (charBoundaries t).length = t.length + 1 :=
  charBoundariesAux_length t 0

theorem charBoundaries_get? (t : List Char) (i : Nat) (hi : i ≤ t.length) :
    (charBoundaries t).get? i = some ((strBytes (t.take i)).length) := by
  rw [charBoundaries, charBoundariesAux_get? t 0 i hi, Nat.zero_add]

end SliceLemmas

section SpanMapperClaims

/-- C6.  Character-offset mapping is Unicode-safe: for in-range character
offsets `start ≤ stop ≤` scalar-value count with a replacement differing
from the addressed substring, the backend mapper produces a suggestion whose
byte range, sliced back out of the document, is exactly the UTF-8 encoding
of scalar values `start..stop` (multi-byte code points included); and an
inverted or out-of-range match produces nothing. -/
theorem span_mapper_unicode_safe (t : List Char) (m : BMatch) :
    (m.start ≤ m.stop → m.stop ≤ t.length →
      strBytes m.replacement ≠ strBytes ((t.drop m.start).take (m.stop - m.start)) →
      ∃ s, mapLlmMatch t m = some s ∧
        s.original = strBytes ((t.drop m.start).take (m.stop - m.start)) ∧
        slice (strBytes t) s.offset s.length =
          strBytes ((t.drop m.start).take (m.stop - m.start))) ∧
    (m.stop < m.start ∨ t.length < m.stop → mapLlmMatch t m = none) := by
  constructor
  · intro hse he hne
    have hgs := charBoundaries_get? t m.start (le_trans hse he)
    have hge := charBoundaries_get? t m.stop he
    have hmono : (strBytes (t.take m.start)).length ≤
        (strBytes (t.take m.stop)).length := by
      rw [strBytes_take_add t m.start m.stop hse, List.length_append]
      omega
    have hebtot : (strBytes (t.take m.stop)).length ≤ (strBytes t).length := by
      rw [strBytes_take_drop t m.stop, List.length_append]
      omega
    have hmems : (strBytes (t.take m.start)).length ∈ charBoundaries t :=
      List.get?_mem hgs
    have hmeme : (strBytes (t.take m.stop)).length ∈ charBoundaries t :=
      List.get?_mem hge
    have hslice := slice_strBytes_segment t m.start m.stop hse
    simp only [mapLlmMatch, charBoundaries_length, Nat.add_sub_cancel]
    rw [if_neg (by omega), hgs, Option.some_bind, hge, Option.some_bind]
    rw [if_neg (by omega)]
    rw [strGet, if_pos ⟨hmono, hmems, hmeme⟩, Option.some_bind]
    rw [if_neg (by simp only [beq_iff_eq, hslice]; exact fun h => hne h.symm)]
    exact ⟨_, rfl, hslice, hslice⟩
  · intro hbad
    simp only [mapLlmMatch, charBoundaries_length, Nat.add_sub_cancel]
    rw [if_pos (by omega)]

/-- Witness for C6: the spec's scenario "Hi 😀 there" with character range
`[3, 4)` maps to the byte span of the emoji, and an inverted range maps to
nothing. -/
theorem span_mapper_unicode_safe_witness :
    (∃ s, mapLlmMatch "Hi 😀 there".data ⟨"Change", 3, 4, "🙂".data⟩ = some s ∧
      s.original =
        strBytes (("Hi 😀 there".data.drop 3).take (4 - 3)) ∧
      slice (strBytes "Hi 😀 there".data) s.offset s.length =
        strBytes (("Hi 😀 there".data.drop 3).take (4 - 3))) ∧
    mapLlmMatch "ab".data ⟨"x", 3, 2, "y".data⟩ = none := by
  constructor
  · exact (span_mapper_unicode_safe "Hi 😀 there".data
      ⟨"Change", 3, 4, "🙂".data⟩).1 (by norm_num) (by decide) (by decide)
  · exact (span_mapper_unicode_safe "ab".data ⟨"x", 3, 2, "y".data⟩).2
      (by norm_num)

/-- Everything the sort-and-sweep pipeline outputs came from the mapped
match list. -/
theorem mem_sweep_sort {α : Type} (off len : α → Nat) (l : List α) {s : α}
    (h : s ∈ sweepBy off len 0 (sortByOffset off l)) : s ∈ l :=
  ((List.perm_insertionSort _ l).mem_iff).mp
    ((sweepBy_sublist off len 0 (sortByOffset off l)).subset h)

/-- A suggestion produced by the backend's per-match mapper is live: its
byte range is in bounds and slices back to its `original`. -/
theorem mapLlmMatch_live (t : List Char) (m : BMatch) (s : BSug)
    (h : mapLlmMatch t m = some s) :
    LiveSpan (strBytes t) s.offset s.length s.original := by
  simp only [mapLlmMatch] at h
  split at h
  · exact absurd h (by simp)
  · rcases hsB : (charBoundaries t).get? m.start with _ | sb
    · rw [hsB, Option.none_bind] at h
      exact absurd h (by simp)
    · rw [hsB, Option.some_bind] at h
      rcases heB : (charBoundaries t).get? m.stop with _ | eb
      · rw [heB, Option.none_bind] at h
        exact absurd h (by simp)
      · rw [heB, Option.some_bind] at h
        split at h
        · exact absurd h (by simp)
        · rename_i hrange
          rw [strGet] at h
          split at h
          · rw [Option.some_bind] at h
            split at h
            · exact absurd h (by simp)
            · obtain rfl := Option.some.inj h
              refine ⟨?_, rfl⟩
              show sb + (eb - sb) ≤ (strBytes t).length
              omega
          · rw [Option.none_bind] at h
            exact absurd h (by simp)

/-- A suggestion produced by the frontend's per-match mapper carries the
match's original (as bytes) with its byte length; when the case-sensitive
search resolves that original, the suggestion's offset is the hit. -/
theorem mapMatchFront_find (t : List Char) (m : LlmMatch) (s : Sug)
    (h : mapMatchFront t m = some s) :
    s.original = strBytes m.original ∧
    s.length = (strBytes m.original).length ∧
    (∀ p, byteFind (strBytes t) (strBytes m.original) = some p →
      s.offset = p) := by
  simp only [mapMatchFront] at h
  split at h
  · simp at h
  · split at h
    · simp at h
    · split at h
      · rename_i pos hfind
        obtain rfl := Option.some.inj h
        refine ⟨rfl, rfl, fun p hp => ?_⟩
        rw [hfind] at hp
        show pos = p
        exact Option.some.inj hp
      · split at h
        · obtain rfl := Option.some.inj h
          refine ⟨rfl, rfl, fun p hp => ?_⟩
          simp_all
        · simp at h

/-- C2 counterexample: the frontend's case-insensitive fallback locates the
offset in the lowercased text, so the produced suggestion is not live — for
document "Has a cat." and match original "has", the one produced suggestion
has offset 0 and original "has", but the document's bytes at `[0, 3)` are
"Has". -/
theorem case_insensitive_fallback_stale :
    (convertMatchesToSuggestions "Has a cat.".data
        [⟨"m", "has".data, some "have".data, .error⟩]).map
      (fun s => (s.offset, s.length, s.original)) =
      [(0, 3, strBytes "has".data)] ∧
    ¬ LiveSpan (strBytes "Has a cat.".data) 0 3 (strBytes "has".data) := by
  constructor
  · decide
  · decide

/-- C2 (amended).  Liveness at birth: every suggestion produced by the
backend's character-offset span mapper satisfies
`offset + length ≤ byte length` and `document[offset..offset+length] ==
original`; a suggestion produced by the frontend's literal-search span
mapper satisfies them whenever the case-sensitive search resolves its
original (the case-insensitive fallback can produce a suggestion that is
stale at birth). -/
theorem span_mapper_liveness :
    (∀ (t : List Char) (ms : List BMatch) (s : BSug),
        s ∈ convertLlmMatchesToSuggestions t ms →
        LiveSpan (strBytes t) s.offset s.length s.original) ∧
    (∀ (t : List Char) (ms : List LlmMatch) (s : Sug) (p : Nat),
        s ∈ convertMatchesToSuggestions t ms →
        byteFind (strBytes t) s.original = some p →
        s.offset = p ∧
        LiveSpan (strBytes t) s.offset s.length s.original) := by
  constructor
  · intro t ms s hs
    rw [convertLlmMatchesToSuggestions] at hs
    obtain ⟨m, -, hm⟩ := List.mem_filterMap.mp (mem_sweep_sort _ _ _ hs)
    exact mapLlmMatch_live t m s hm
  · intro t ms s p hs hfind
    rw [convertMatchesToSuggestions, normalize] at hs
    obtain ⟨m, -, hm⟩ := List.mem_filterMap.mp (mem_sweep_sort _ _ _ hs)
    obtain ⟨horig, hlen, hoff⟩ := mapMatchFront_find t m s hm
    rw [horig] at hfind
    obtain ⟨hbound, hslice⟩ := byteFind_spec (strBytes m.original) _ p hfind
    have hop := hoff p hfind
    refine ⟨hop, ?_, ?_⟩
    · rw [hop, hlen]; exact hbound
    · rw [hop, hlen, horig]; exact hslice

/-- Witness for C2 (amended): the backend mapper on the emoji document and
the frontend mapper on "I has a cat." both yield live suggestions. -/
theorem span_mapper_liveness_witness :
    LiveSpan (strBytes "Hi 😀 there".data) 3 4 (strBytes "😀".data) ∧
    LiveSpan (strBytes "I has a cat.".data) 2 3 (strBytes "has".data) := by
  constructor
  · exact span_mapper_liveness.1 "Hi 😀 there".data
      [⟨"Change", 3, 4, "🙂".data⟩]
      ⟨"Change", 3, 4, strBytes "😀".data, "🙂".data⟩ (by decide)
  · exact (span_mapper_liveness.2 "I has a cat.".data
      [⟨"m", "has".data, some "have".data, .error⟩]
      ⟨0, "m", 2, 3, strBytes "has".data, some (strBytes "have".data), .error⟩
      2 (by decide) (by decide)).2

end SpanMapperClaims

section ApplyClaims

/-- The wrapping usize cast of the offset shift collapses to plain
arithmetic whenever the shifted offset neither underflows nor overflows. -/
theorem wrap_eq (so rl tl : Nat) (h1 : tl ≤ so + rl)
    (h2 : so + rl < 2 ^ 64) :
    (((so : Int) + ((rl : Int) - (tl : Int))) % (2 ^ 64 : Int)).toNat =
      so + rl - tl := by
  have hpow : (2 : Int) ^ 64 = 18446744073709551616 := by norm_num
  have hpn : (2 : Nat) ^ 64 = 18446744073709551616 := by norm_num
  rw [hpow]
  rw [hpn] at h2
  omega

/-- The successful path of `apply_suggestion`: with the target found, live,
and carrying a replacement, the document is spliced, `last_checked_text`
follows the new document, and the survivors are the other suggestions with
the (wrapping) offset shift applied past the target's offset. -/
theorem applySuggestion_apply_path (now : Int) (st : EngineState) (sid : Nat)
    (t : Sug) (r : List Nat)
    (hfind : st.suggestions.find? (fun s => s.id == sid) = some t)
    (hrepl : t.replacement = some r)
    (hbound : t.offset + t.length ≤ st.text.length)
    (hslice : slice st.text t.offset t.length = t.original) :
    (applySuggestion now st sid).text =
        st.text.take t.offset ++ r ++ st.text.drop (t.offset + t.length) ∧
    (applySuggestion now st sid).last_checked_text =
        (applySuggestion now st sid).text ∧
    (applySuggestion now st sid).suggestions =
      (st.suggestions.filter (fun s => s.id != sid)).map (fun s =>
        if t.offset < s.offset then
          { s with offset :=
              (((s.offset : Int) + ((r.length : Int) - (t.length : Int))) %
                (2 ^ 64 : Int)).toNat }
        else s) := by
  simp only [applySuggestion, hfind]
  rw [if_neg (by omega), if_neg (by simp [hslice]), hrepl]
  exact ⟨rfl, rfl, rfl⟩

/-- C4 counterexample: applying the live target `{offset 0, length 5,
original "abcde", replacement ""}` to "abcde" with a second pending
suggestion at offset 2 does not shift that suggestion by
`delta = 0 - 5 = -5`: its offset becomes the wrapped usize value
`2^64 - 3`, not `2 + delta = -3`. -/
theorem apply_shift_wraps :
    ((applySuggestion 0
      ⟨[97, 98, 99, 100, 101], [], [⟨1, "t", 0, 5, [97, 98, 99, 100, 101],
          some [], .error⟩, ⟨2, "o", 2, 1, [99], some [120], .error⟩],
        none, "s", 1000, false, none, false, none, none, [], 7⟩
      1).suggestions.map (fun s => (s.offset : Int))) = [2 ^ 64 - 3] ∧
    ¬ ((applySuggestion 0
      ⟨[97, 98, 99, 100, 101], [], [⟨1, "t", 0, 5, [97, 98, 99, 100, 101],
          some [], .error⟩, ⟨2, "o", 2, 1, [99], some [120], .error⟩],
        none, "s", 1000, false, none, false, none, none, [], 7⟩
      1).suggestions.map (fun s => (s.offset : Int))) = [(2 : Int) - 5] := by
  have hval : ((applySuggestion 0
      ⟨[97, 98, 99, 100, 101], [], [⟨1, "t", 0, 5, [97, 98, 99, 100, 101],
          some [], .error⟩, ⟨2, "o", 2, 1, [99], some [120], .error⟩],
        none, "s", 1000, false, none, false, none, none, [], 7⟩
      1).suggestions.map (fun s => (s.offset : Int))) =
      [(18446744073709551613 : Int)] := by decide
  rw [hval]
  constructor
  · norm_num
  · norm_num

/-- C4 (amended).  Apply of a found, live target with a replacement splices
the replacement into the byte range, updates `last_checked_text` to the new
document, removes the target, leaves suggestions at or before the target's
offset untouched, and shifts every remaining suggestion past the target's
offset by `delta = len(replacement) − length` — provided the shifted offset
does not underflow (no remaining suggestion starts strictly inside the
replaced span when the replacement shrinks) and offsets stay below `2^64`. -/
theorem apply_splices_and_shifts (now : Int) (st : EngineState) (sid : Nat)
    (t : Sug) (r : List Nat)
    (hfind : st.suggestions.find? (fun s => s.id == sid) = some t)
    (hrepl : t.replacement = some r)
    (hlive : LiveSpan st.text t.offset t.length t.original)
    (hshift : ∀ s ∈ st.suggestions, t.offset < s.offset →
      t.length ≤ s.offset + r.length)
    (hbound : ∀ s ∈ st.suggestions, s.offset + r.length < 2 ^ 64) :
    (applySuggestion now st sid).text =
        st.text.take t.offset ++ r ++ st.text.drop (t.offset + t.length) ∧
    (applySuggestion now st sid).last_checked_text =
        (applySuggestion now st sid).text ∧
    (applySuggestion now st sid).suggestions =
      (st.suggestions.filter (fun s => s.id != sid)).map (fun s =>
        if t.offset < s.offset then
          { s with offset := s.offset + r.length - t.length }
        else s) := by
  obtain ⟨ht, hl, hs⟩ :=
    applySuggestion_apply_path now st sid t r hfind hrepl hlive.1 hlive.2
  refine ⟨ht, hl, ?_⟩
  rw [hs]
  apply List.map_congr_left
  intro s hsf
  have hsm := (List.mem_filter.mp hsf).1
  by_cases hgt : t.offset < s.offset
  · rw [if_pos hgt, if_pos hgt,
      wrap_eq s.offset r.length t.length (hshift s hsm hgt) (hbound s hsm)]
  · rw [if_neg hgt, if_neg hgt]

/-- Witness for C4 at the spec's scenario: applying
`{offset 2, length 3, "has" → "have"}` to "I has a cat." shifts the pending
suggestion at offset 8 to 9 and yields "I have a cat.". -/
theorem apply_splices_and_shifts_witness :
    (applySuggestion 0
      ⟨strBytes "I has a cat.".data, [],
        [⟨1, "m", 2, 3, strBytes "has".data, some (strBytes "have".data), .error⟩,
         ⟨2, "m2", 8, 3, strBytes "cat".data, some (strBytes "dog".data), .error⟩],
        none, "s", 1000, false, none, false, none, none, [], 7⟩ 1).text =
      strBytes "I have a cat.".data ∧
    (applySuggestion 0
      ⟨strBytes "I has a cat.".data, [],
        [⟨1, "m", 2, 3, strBytes "has".data, some (strBytes "have".data), .error⟩,
         ⟨2, "m2", 8, 3, strBytes "cat".data, some (strBytes "dog".data), .error⟩],
        none, "s", 1000, false, none, false, none, none, [], 7⟩
      1).last_checked_text = strBytes "I have a cat.".data ∧
    (applySuggestion 0
      ⟨strBytes "I has a cat.".data, [],
        [⟨1, "m", 2, 3, strBytes "has".data, some (strBytes "have".data), .error⟩,
         ⟨2, "m2", 8, 3, strBytes "cat".data, some (strBytes "dog".data), .error⟩],
        none, "s", 1000, false, none, false, none, none, [], 7⟩
      1).suggestions.map (fun s => (s.id, s.offset)) = [(2, 9)] := by
  have h := apply_splices_and_shifts 0
    ⟨strBytes "I has a cat.".data, [],
      [⟨1, "m", 2, 3, strBytes "has".data, some (strBytes "have".data), .error⟩,
       ⟨2, "m2", 8, 3, strBytes "cat".data, some (strBytes "dog".data), .error⟩],
      none, "s", 1000, false, none, false, none, none, [], 7⟩ 1
    ⟨1, "m", 2, 3, strBytes "has".data, some (strBytes "have".data), .error⟩
    (strBytes "have".data) (by decide) rfl (by decide)
    (by decide) (by decide)
  refine ⟨h.1.trans (by decide), (h.2.1.trans h.1).trans (by decide), ?_⟩
  rw [h.2.2]
  decide

/-- Non-overlap of the half-open byte ranges of two suggestions: one ends
at or before the other starts. -/
def Sug.Disjoint (a b : Sug) : Prop :=
  a.offset + a.length ≤ b.offset ∨ b.offset + b.length ≤ a.offset

instance (a b : Sug) : Decidable (Sug.Disjoint a b) := by
  unfold Sug.Disjoint; infer_instance

/-- C5 counterexample: applying a zero-length (insertion) target that is
live and disjoint from the rest breaks the claim — inserting "X" at offset
1 of "ab" leaves the pending suggestion `{offset 1, length 1, original
"b"}` unshifted, so afterwards it overlaps the edited region and its
original no longer matches the new document ("aXb") at its offset. -/
theorem apply_insertion_breaks_liveness :
    ([⟨1, "t", 1, 0, [], some [88], .error⟩,
      ⟨2, "o", 1, 1, [98], some [121], .error⟩] : List Sug).Pairwise
        Sug.Disjoint ∧
    LiveSpan [97, 98] 1 0 [] ∧ LiveSpan [97, 98] 1 1 [98] ∧
    (applySuggestion 0
      ⟨[97, 98], [], [⟨1, "t", 1, 0, [], some [88], .error⟩,
        ⟨2, "o", 1, 1, [98], some [121], .error⟩],
        none, "s", 1000, false, none, false, none, none, [], 7⟩
      1).suggestions = [⟨2, "o", 1, 1, [98], some [121], .error⟩] ∧
    (applySuggestion 0
      ⟨[97, 98], [], [⟨1, "t", 1, 0, [], some [88], .error⟩,
        ⟨2, "o", 1, 1, [98], some [121], .error⟩],
        none, "s", 1000, false, none, false, none, none, [], 7⟩
      1).text = [97, 88, 98] ∧
    ¬ LiveSpan [97, 88, 98] 1 1 [98] := by
  exact ⟨by decide, by decide, by decide, by decide, by decide, by decide⟩

/-- C5 (amended).  For a pairwise non-overlapping, all-live suggestion set
and a found target with a replacement and a nonempty span (`length ≥ 1`, as
every mapper-produced frontend suggestion has), after apply every remaining
suggestion is live in the new document at its (possibly shifted) offset, no
remaining range overlaps the replaced region
`[target.offset, target.offset + len(replacement))`, and the remaining set
is still pairwise non-overlapping. -/
theorem apply_preserves_liveness (now : Int) (st : EngineState) (sid : Nat)
    (t : Sug) (r : List Nat)
    (hfind : st.suggestions.find? (fun s => s.id == sid) = some t)
    (hrepl : t.replacement = some r)
    (hlen1 : 1 ≤ t.length)
    (hpw : st.suggestions.Pairwise Sug.Disjoint)
    (hlive : ∀ s ∈ st.suggestions,
      LiveSpan st.text s.offset s.length s.original)
    (hbig : st.text.length + r.length < 2 ^ 64) :
    (∀ s ∈ (applySuggestion now st sid).suggestions,
        LiveSpan (applySuggestion now st sid).text s.offset s.length
          s.original ∧
        (s.offset + s.length ≤ t.offset ∨ t.offset + r.length ≤ s.offset)) ∧
    (applySuggestion now st sid).suggestions.Pairwise Sug.Disjoint := by
  have htmem : t ∈ st.suggestions := List.mem_of_find?_eq_some hfind
  have htid : t.id = sid := by simpa using List.find?_some hfind
  have htlive := hlive t htmem
  obtain ⟨ht, -, hs⟩ :=
    applySuggestion_apply_path now st sid t r hfind hrepl htlive.1 htlive.2
  have hto : t.offset + t.length ≤ st.text.length := htlive.1
  have hlenTake : (st.text.take t.offset).length = t.offset := by
    rw [List.length_take]; omega
  have hsymm : Symmetric Sug.Disjoint := fun _ _ hab => hab.symm
  have hdisj : ∀ s ∈ st.suggestions, s ≠ t → Sug.Disjoint s t :=
    fun s hsm hne => hpw.forall hsymm hsm htmem hne
  have hFval : ∀ s ∈ st.suggestions, s ≠ t →
      (s.offset + s.length ≤ t.offset ∧
        (if t.offset < s.offset then
          { s with offset :=
              (((s.offset : Int) + ((r.length : Int) - (t.length : Int))) %
                (2 ^ 64 : Int)).toNat }
        else s) = s) ∨
      (t.offset + t.length ≤ s.offset ∧
        (if t.offset < s.offset then
          { s with offset :=
              (((s.offset : Int) + ((r.length : Int) - (t.length : Int))) %
                (2 ^ 64 : Int)).toNat }
        else s) = { s with offset := s.offset + r.length - t.length }) := by
    intro s hsm hne
    rcases hdisj s hsm hne with hA | hB
    · exact Or.inl ⟨hA, if_neg (by omega)⟩
    · refine Or.inr ⟨hB, ?_⟩
      rw [if_pos (by omega), wrap_eq s.offset r.length t.length (by omega)
        (by have h1 := (hlive s hsm).1; omega)]
  constructor
  · intro s' hs'
    rw [hs] at hs'
    obtain ⟨s, hsf, rfl⟩ := List.mem_map.mp hs'
    obtain ⟨hsm, hsid⟩ := List.mem_filter.mp hsf
    have hne : s ≠ t := by
      intro he
      have hb := bne_iff_ne.mp hsid
      rw [he, htid] at hb
      exact hb rfl
    rcases hFval s hsm hne with ⟨hA, hFs⟩ | ⟨hB, hFs⟩
    · rw [hFs, ht]
      refine ⟨⟨?_, ?_⟩, Or.inl hA⟩
      · simp only [List.length_append, hlenTake, List.length_drop]
        omega
      · rw [List.append_assoc,
          slice_append_left _ _ _ _ (by rw [hlenTake]; omega),
          slice_take _ _ _ _ (by omega)]
        exact (hlive s hsm).2
    · rw [hFs, ht]
      have hsb := (hlive s hsm).1
      have hnB : s.offset + r.length - t.length =
          (st.text.take t.offset ++ r).length +
            (s.offset - (t.offset + t.length)) := by
        rw [List.length_append, hlenTake]; omega
      refine ⟨⟨?_, ?_⟩, Or.inr ?_⟩
      · show s.offset + r.length - t.length + s.length ≤ _
        simp only [List.length_append, hlenTake, List.length_drop]
        omega
      · show slice _ (s.offset + r.length - t.length) s.length = s.original
        rw [hnB, slice_append_right, slice_drop]
        have harg : t.offset + t.length + (s.offset - (t.offset + t.length)) =
            s.offset := by omega
        rw [harg]
        exact (hlive s hsm).2
      · show t.offset + r.length ≤ s.offset + r.length - t.length
        omega
  · rw [hs, List.pairwise_map]
    have hpf : (st.suggestions.filter (fun s => s.id != sid)).Pairwise
        Sug.Disjoint :=
      List.Pairwise.sublist (List.filter_sublist st.suggestions) hpw
    refine List.Pairwise.imp_of_mem ?_ hpf
    intro a b ha hb hab
    have ham := (List.mem_filter.mp ha).1
    have hbm := (List.mem_filter.mp hb).1
    have hane : a ≠ t := by
      intro he
      have hba := bne_iff_ne.mp (List.mem_filter.mp ha).2
      rw [he, htid] at hba
      exact hba rfl
    have hbne : b ≠ t := by
      intro he
      have hbb := bne_iff_ne.mp (List.mem_filter.mp hb).2
      rw [he, htid] at hbb
      exact hbb rfl
    rcases hFval a ham hane with ⟨hAa, hFa⟩ | ⟨hBa, hFa⟩ <;>
      rcases hFval b hbm hbne with ⟨hAb, hFb⟩ | ⟨hBb, hFb⟩ <;>
      rw [hFa, hFb] <;>
      simp only [Sug.Disjoint] at hab ⊢ <;>
      omega

/-- Witness for C5 (amended): after applying "has"→"have" on
"I has a cat.", the shifted suggestion (now at offset 9) is still live and
clear of the replaced region, and the remaining set stays non-overlapping. -/
theorem apply_preserves_liveness_witness :
    LiveSpan (applySuggestion 0
      ⟨strBytes "I has a cat.".data, [],
        [⟨1, "m", 2, 3, strBytes "has".data, some (strBytes "have".data), .error⟩,
         ⟨2, "m2", 8, 3, strBytes "cat".data, some (strBytes "dog".data), .error⟩],
        none, "s", 1000, false, none, false, none, none, [], 7⟩ 1).text
      9 3 (strBytes "cat".data) ∧
    (applySuggestion 0
      ⟨strBytes "I has a cat.".data, [],
        [⟨1, "m", 2, 3, strBytes "has".data, some (strBytes "have".data), .error⟩,
         ⟨2, "m2", 8, 3, strBytes "cat".data, some (strBytes "dog".data), .error⟩],
        none, "s", 1000, false, none, false, none, none, [], 7⟩
      1).suggestions.Pairwise Sug.Disjoint := by
  have h := apply_preserves_liveness 0
    ⟨strBytes "I has a cat.".data, [],
      [⟨1, "m", 2, 3, strBytes "has".data, some (strBytes "have".data), .error⟩,
       ⟨2, "m2", 8, 3, strBytes "cat".data, some (strBytes "dog".data), .error⟩],
      none, "s", 1000, false, none, false, none, none, [], 7⟩ 1
    ⟨1, "m", 2, 3, strBytes "has".data, some (strBytes "have".data), .error⟩
    (strBytes "have".data) (by decide) rfl (by norm_num) (by decide)
    (by decide) (by decide)
  exact ⟨(h.1 ⟨2, "m2", 9, 3, strBytes "cat".data,
    some (strBytes "dog".data), .error⟩ (by decide)).1, h.2⟩

end ApplyClaims

end Grammy
